import Mathlib

/-!
Verification development for the `paper_crawler` repository.

The Python sources under `paper_crawler/` are shallowly embedded below.
Network I/O is modelled by oracle functions passed explicitly: an oracle
maps the attempt index (or the request parameters) to the outcome that
`requests.get` / JSON parsing produced for that call.  Each embedded
fetch function additionally returns the chronological list of waits it
slept (`time.sleep` arguments from the backoff logic) and the list of
request keys/URLs it issued, so that claims about backoff factors and
about which requests are issued can be stated and settled.

Python dictionaries for article records are embedded as the `Article`
structure.  Keys that the code always materialises (`pmid`, `title`,
`doi`, ..., created by `fetch_article_details`) are plain `String`s with
`""` standing for a missing/empty value; this is behaviourally faithful
because every place in the code that branches on those keys tests key
presence together with truthiness (or behaves identically on `""`).
The `citation_count` / `citation_source` keys are absent until
`enrich_articles_with_citations` sets them, hence `Option`.
-/

namespace PaperCrawler

/-! ## String helpers shared by several modules

Python string operations are embedded as structurally recursive
functions over `List Char` (wrapped back into `String` at the
interface). This keeps every embedded function evaluable by the
kernel, which the concrete instantiations below rely on.  The ASCII
fragments exercised by the code make these functions agree with the
CPython operations they model. -/

/-- Python substring test `pat in s` (`str.__contains__`): `pat`'s
characters occur contiguously inside `s` (some suffix of `s` starts
with `pat`). -/
def strContains (s pat : String) : Bool :=
  s.data.tails.any (fun t => pat.data.isPrefixOf t)

/-- Helper for `splitOnFirst`: scan for the first occurrence of `sep`,
accumulating the (reversed) prefix read so far. -/
def splitFirstAux (sep : List Char) : List Char → List Char → Option (List Char × List Char)
  | [], _ => none
  | c :: rest, pre =>
    if sep.isPrefixOf (c :: rest) then some (pre.reverse, (c :: rest).drop sep.length)
    else splitFirstAux sep rest (c :: pre)

/-- Python `s.split(sep, 1)` for non-empty `sep`: the part before the
first occurrence of `sep` and the remainder (with any later
occurrences of `sep` intact).  When `sep` does not occur, the second
component is `""` (the code only reads it under a containment guard). -/
def splitOnFirst (s sep : String) : String × String :=
  match splitFirstAux sep.data s.data [] with
  | some (pre, post) => (⟨pre⟩, ⟨post⟩)
  | none => (s, "")

/-- Python `sep.join(parts)` on character lists. -/
def joinWith (sep : List Char) : List (List Char) → List Char
  | [] => []
  | [x] => x
  | x :: rest => x ++ sep ++ joinWith sep rest

/-- Python `sep.join(parts)` for strings. -/
def pyJoin (sep : String) (parts : List String) : String :=
  ⟨joinWith sep.data (parts.map (fun p => p.data))⟩

/-- Python `s.split()` (split on whitespace runs, dropping empty
tokens), on character lists; `cur` holds the current token reversed. -/
def wsTokens : List Char → List Char → List (List Char)
  | [], cur => if cur.isEmpty then [] else [cur.reverse]
  | c :: rest, cur =>
    if c.isWhitespace then
      if cur.isEmpty then wsTokens rest [] else cur.reverse :: wsTokens rest []
    else wsTokens rest (c :: cur)

/-- Python `s.split("\n")`-style single-character split (keeps empty
pieces); `cur` holds the current piece reversed. -/
def splitCharAux (ch : Char) : List Char → List Char → List (List Char)
  | [], cur => [cur.reverse]
  | c :: rest, cur =>
    if c = ch then cur.reverse :: splitCharAux ch rest []
    else splitCharAux ch rest (c :: cur)

/-- Python `s.split(ch)` for a single-character separator. -/
def pySplitChar (s : String) (ch : Char) : List String :=
  (splitCharAux ch s.data []).map (fun l => ⟨l⟩)

/-- Python `s.strip()`: drop leading and trailing whitespace. -/
def pyStrip (s : String) : String :=
  ⟨(((s.data.dropWhile Char.isWhitespace).reverse).dropWhile Char.isWhitespace).reverse⟩

/-- Python `s.lower()` (ASCII case folding, which covers every string
the crawler manipulates). -/
def pyLower (s : String) : String :=
  ⟨s.data.map Char.toLower⟩

/-- Python `s.startswith(pre)`. -/
def pyStartsWith (s pre : String) : Bool :=
  pre.data.isPrefixOf s.data

/-- Python `s[n:]` (code-point slicing). -/
def pyDrop (s : String) (n : Nat) : String :=
  ⟨s.data.drop n⟩

/-- Python `s.replace(pat, rep)` for non-empty `pat` (left-to-right,
non-overlapping), with fuel for termination; every step consumes at
least one character. -/
def replaceAllAux (pat rep : List Char) : Nat → List Char → List Char
  | _, [] => []
  | 0, l => l
  | fuel + 1, c :: rest =>
    if pat.isPrefixOf (c :: rest) then
      rep ++ replaceAllAux pat rep fuel ((c :: rest).drop pat.length)
    else c :: replaceAllAux pat rep fuel rest

/-- Python `s.replace(pat, rep)` for non-empty `pat`. -/
def pyReplace (s pat rep : String) : String :=
  ⟨replaceAllAux pat.data rep.data s.data.length s.data⟩

/-- Python `" ".join(s.split())`: collapse all whitespace runs to single
spaces and drop leading/trailing whitespace (used for titles). -/
def collapseWs (s : String) : String :=
  ⟨joinWith ([' ']) (wsTokens s.data [])⟩

/-- Python `name.split()[-1]` (last whitespace-separated token), as used
for the first author's surname in `fetch_citation_count_by_title_authors`.
(When `name` is empty or all whitespace, the Python code would raise
`IndexError`; this total embedding returns `""` there.  No claim touches
that corner.) -/
def lastNameOf (s : String) : String :=
  ((wsTokens s.data []).getLast?.map (fun l => (⟨l⟩ : String))).getD ("")

/-- The DOI cleaning performed at the top of `fetch_citation_count_by_doi`
and `fetch_citation_count_from_crossref`:
`doi.strip()`, then if `doi.lower().startswith("doi:")`, `doi[4:].strip()`. -/
def cleanDoi (doi : String) : String :=
  let d := pyStrip doi
  if pyStartsWith (pyLower d) ("doi:") then pyStrip (pyDrop d 4) else d

/-- Python `dict` lookup for a dict built by successive assignments from
an association list: the *last* binding of a key wins. -/
def dictLookup (l : List (String × String)) (k : String) : Option String :=
  l.reverse.lookup k

/-! ## Article records (`paper_crawler` article dictionaries) -/

/-- One article dictionary, as built by `fetch_article_details` and
mutated by `fetch_abstracts` / `enrich_articles_with_citations`. -/
structure Article where
  pmid : String
  title : String
  journal : String
  pub_date : String
  doi : String
  url : String
  authors : List String
  abstract : String
  citation_count : Option Int := none
  citation_source : Option String := none
deriving DecidableEq, Repr

/-! ## `article_processor.py` -/

/-- `contains_any_keyword(text, keywords)`: True iff some keyword,
lowercased, occurs in the lowercased text.  The Python for-loop with an
early `return True` is `List.any`. -/
def contains_any_keyword (text : String) (keywords : List String) : Bool :=
  let textLower := pyLower text
  keywords.any (fun kw => strContains textLower (pyLower kw))

/-- `filter_articles_by_keywords(articles, keywords)`: the accumulator
loop appending each article whose `f"{title} {abstract}"` contains a
keyword. -/
def filter_articles_by_keywords (articles : List Article) (keywords : List String) :
    List Article :=
  articles.foldl
    (fun acc a =>
      if contains_any_keyword (a.title ++ " " ++ a.abstract) keywords then
        acc ++ [a]
      else acc)
    []

/-! ## `citation_fetcher.py`

Each citation API call is modelled by an oracle `Nat → CitAttempt`
(attempt index ↦ outcome of that `requests.get` plus JSON decoding).
`CitAttempt.exc` is any exception raised during the attempt;
`CitAttempt.resp s body` is an HTTP response with status `s`, where
`body = some n` means the decoded JSON carried the relevant
citation-count field with value `n`, and `body = none` means the field
(or its containers) was absent/falsy — in which case the code returns
`0` on a 200 response. -/

inductive CitAttempt where
  | exc : CitAttempt
  | resp : Nat → Option Int → CitAttempt
deriving DecidableEq, Repr

/-- Outcome of the Semantic Scholar free-text search: on a 200 the JSON
carries a list of hits, each with or without a `citationCount` field. -/
inductive SearchAttempt where
  | exc : SearchAttempt
  | resp : Nat → List (Option Int) → SearchAttempt
deriving DecidableEq, Repr

/-- Result of one embedded citation fetch: the returned value, the
chronological `time.sleep` waits (in seconds, exact rationals) and the
request URLs/keys issued. -/
structure CitResult where
  result : Option Int
  waits : List ℚ
  reqs : List String
deriving DecidableEq, Repr

def ssUrl (d : String) : String :=
  "https://api.semanticscholar.org/graph/v1/paper/DOI:" ++ d ++ "?fields=citationCount"

def crUrl (d : String) : String :=
  "https://api.crossref.org/works/" ++ d

def icUrl (p : String) : String :=
  "https://icite.od.nih.gov/api/pubs/" ++ p

/-- The retry loop of `fetch_citation_count_from_crossref` (lines
100-126): 200 → answer (0 when the count field is absent); 429 → sleep
`base * 2 ** attempt` and retry; other statuses → `None`; an exception
sleeps and retries unless it happened on the last attempt. -/
def crossrefLoop (d : String) (mr : Nat) (bw : ℚ) (cr : Nat → CitAttempt) :
    Nat → Nat → List ℚ → List String → CitResult
  | _, 0, waits, reqs => ⟨none, waits, reqs⟩
  | i, fuel + 1, waits, reqs =>
    let reqs := reqs ++ [crUrl d]
    match cr i with
    | .resp s body =>
      if s = 200 then ⟨some (body.getD 0), waits, reqs⟩
      else if s = 429 then crossrefLoop d mr bw cr (i + 1) fuel (waits ++ [bw * 2 ^ i]) reqs
      else ⟨none, waits, reqs⟩
    | .exc =>
      if i + 1 < mr then crossrefLoop d mr bw cr (i + 1) fuel (waits ++ [bw * 2 ^ i]) reqs
      else ⟨none, waits, reqs⟩

/-- `fetch_citation_count_from_crossref(doi, max_retries=2, base_wait_time=1.0)`. -/
def fetch_citation_count_from_crossref (doi : String) (mr : Nat) (bw : ℚ)
    (cr : Nat → CitAttempt) : CitResult :=
  if doi = "" then ⟨none, [], []⟩
  else crossrefLoop (cleanDoi doi) mr bw cr 0 mr [] []

/-- The retry loop of `fetch_citation_count_by_doi` (lines 41-68):
as `crossrefLoop`, except that a non-200/429 status — and an exception on
the final attempt — falls back to `fetch_citation_count_from_crossref`
on the (already cleaned) DOI with its default arguments. -/
def doiLoop (d : String) (mr : Nat) (bw : ℚ) (sd cr : Nat → CitAttempt) :
    Nat → Nat → List ℚ → List String → CitResult
  | _, 0, waits, reqs => ⟨none, waits, reqs⟩
  | i, fuel + 1, waits, reqs =>
    let reqs := reqs ++ [ssUrl d]
    match sd i with
    | .resp s body =>
      if s = 200 then ⟨some (body.getD 0), waits, reqs⟩
      else if s = 429 then doiLoop d mr bw sd cr (i + 1) fuel (waits ++ [bw * 2 ^ i]) reqs
      else
        let c := fetch_citation_count_from_crossref d 2 1 cr
        ⟨c.result, waits ++ c.waits, reqs ++ c.reqs⟩
    | .exc =>
      if i + 1 < mr then doiLoop d mr bw sd cr (i + 1) fuel (waits ++ [bw * 2 ^ i]) reqs
      else
        let c := fetch_citation_count_from_crossref d 2 1 cr
        ⟨c.result, waits ++ c.waits, reqs ++ c.reqs⟩

/-- `fetch_citation_count_by_doi(doi, max_retries=3, base_wait_time=1.0)`:
empty DOI → `None` with no requests; otherwise clean the DOI and run the
Semantic Scholar retry loop. -/
def fetch_citation_count_by_doi (doi : String) (mr : Nat) (bw : ℚ)
    (sd cr : Nat → CitAttempt) : CitResult :=
  if doi = "" then ⟨none, [], []⟩
  else doiLoop (cleanDoi doi) mr bw sd cr 0 mr [] []

/-- The retry loop of `fetch_citation_count_by_pmid` (lines 149-175):
same shape as `crossrefLoop` over the iCite endpoint. -/
def pmidLoop (p : String) (mr : Nat) (bw : ℚ) (ic : Nat → CitAttempt) :
    Nat → Nat → List ℚ → List String → CitResult
  | _, 0, waits, reqs => ⟨none, waits, reqs⟩
  | i, fuel + 1, waits, reqs =>
    let reqs := reqs ++ [icUrl p]
    match ic i with
    | .resp s body =>
      if s = 200 then ⟨some (body.getD 0), waits, reqs⟩
      else if s = 429 then pmidLoop p mr bw ic (i + 1) fuel (waits ++ [bw * 2 ^ i]) reqs
      else ⟨none, waits, reqs⟩
    | .exc =>
      if i + 1 < mr then pmidLoop p mr bw ic (i + 1) fuel (waits ++ [bw * 2 ^ i]) reqs
      else ⟨none, waits, reqs⟩

/-- `fetch_citation_count_by_pmid(pmid, max_retries=3, base_wait_time=1.0)`. -/
def fetch_citation_count_by_pmid (pmid : String) (mr : Nat) (bw : ℚ)
    (ic : Nat → CitAttempt) : CitResult :=
  if pmid = "" then ⟨none, [], []⟩
  else pmidLoop pmid mr bw ic 0 mr [] []

/-- The retry loop of `fetch_citation_count_by_title_authors` (lines
214-242): on a 200, the top hit's `citationCount` if the list of hits is
non-empty and the field is present, else `0`; other cases as in
`crossrefLoop`.  The request key recorded is the search query string. -/
def searchLoop (q : String) (mr : Nat) (bw : ℚ) (se : Nat → SearchAttempt) :
    Nat → Nat → List ℚ → List String → CitResult
  | _, 0, waits, reqs => ⟨none, waits, reqs⟩
  | i, fuel + 1, waits, reqs =>
    let reqs := reqs ++ [q]
    match se i with
    | .resp s hits =>
      if s = 200 then
        ⟨some (match hits.head? with | some (some n) => n | _ => 0), waits, reqs⟩
      else if s = 429 then searchLoop q mr bw se (i + 1) fuel (waits ++ [bw * 2 ^ i]) reqs
      else ⟨none, waits, reqs⟩
    | .exc =>
      if i + 1 < mr then searchLoop q mr bw se (i + 1) fuel (waits ++ [bw * 2 ^ i]) reqs
      else ⟨none, waits, reqs⟩

/-- `fetch_citation_count_by_title_authors(title, authors, max_retries=2,
base_wait_time=1.0)`: empty title → `None` with no requests; the query
is `f"{title} {first_author}"` where `first_author` is the last
whitespace token of `authors[0]` (or `""` when `authors` is empty). -/
def fetch_citation_count_by_title_authors (title : String) (authors : List String)
    (mr : Nat) (bw : ℚ) (se : Nat → SearchAttempt) : CitResult :=
  if title = "" then ⟨none, [], []⟩
  else
    let firstAuthor := if authors ≠ [] then lastNameOf (authors.headD ("")) else ""
    searchLoop (title ++ " " ++ firstAuthor) mr bw se 0 mr [] []

/-- The oracles available to one record's pass through
`enrich_articles_with_citations`: Semantic Scholar by DOI, Crossref,
iCite, and the Semantic Scholar title search. -/
structure CitEnv where
  sd : Nat → CitAttempt
  cr : Nat → CitAttempt
  ic : Nat → CitAttempt
  se : Nat → SearchAttempt

/-- The per-record body of `enrich_articles_with_citations` (lines
259-291): try DOI, then PMID, then title/authors, each only when the
corresponding key is present and truthy and no count was obtained yet;
store the count (defaulting to `0`) and a source tag that is chosen by
key presence, not by which lookup produced the count. -/
def enrichArticle (env : CitEnv) (a : Article) : Article :=
  let c1 : Option Int :=
    if a.doi ≠ "" then (fetch_citation_count_by_doi a.doi 3 1 env.sd env.cr).result
    else none
  let c2 : Option Int :=
    if c1 = none ∧ a.pmid ≠ "" then (fetch_citation_count_by_pmid a.pmid 3 1 env.ic).result
    else c1
  let c3 : Option Int :=
    if c2 = none then
      (fetch_citation_count_by_title_authors a.title a.authors 2 1 env.se).result
    else c2
  { a with
    citation_count := some (c3.getD 0),
    citation_source := some
      (if a.doi ≠ "" ∧ c3.isSome then "semantic_scholar"
       else if a.pmid ≠ "" ∧ c3.isSome then "icite"
       else if c3.isSome then "title_search"
       else "none") }

/-- The loop of `enrich_articles_with_citations` over the article list;
`env i` supplies the oracles for the `i`-th record. -/
def enrichList (env : Nat → CitEnv) : Nat → List Article → List Article
  | _, [] => []
  | i, a :: rest => enrichArticle (env i) a :: enrichList env (i + 1) rest

/-- `enrich_articles_with_citations(articles, batch_size=5)` (the
`batch_size` only paces extra sleeps and does not affect the records). -/
def enrich_articles_with_citations (env : Nat → CitEnv) (articles : List Article) :
    List Article :=
  enrichList env 0 articles

/-! ## `pubmed_client.py`: `fetch_with_retry`

The outcome of one attempt inside `fetch_with_retry`: a successful
response (`raise_for_status` passed, i.e. status < 400), a connection
error, a timeout, an `HTTPError` with the offending status, or any
other exception. -/

inductive FwrAttempt where
  | ok : FwrAttempt
  | connErr : FwrAttempt
  | timeout : FwrAttempt
  | httpStatus : Nat → FwrAttempt
  | otherExc : FwrAttempt
deriving DecidableEq, Repr

/-- Result of `fetch_with_retry`: `succeeded = some i` when the request
succeeded at attempt `i`, `none` when all retries were exhausted or a
non-retryable client error occurred; `waits` lists the backoff sleeps. -/
structure FwrResult where
  succeeded : Option Nat
  waits : List ℚ
deriving DecidableEq, Repr

/-- The retry loop of `fetch_with_retry` (lines 27-83): connection
errors, timeouts and unexpected exceptions back off with
`base_delay * 2 ** attempt` unless on the last attempt; HTTP 429 backs
off with `base_delay * 3 ** attempt` (always sleeping, even on the last
attempt); HTTP 5xx backs off with factor 2; any other `HTTPError`
status returns `None` at once. -/
def fwrLoop (bd : ℚ) (orc : Nat → FwrAttempt) (mr : Nat) :
    Nat → Nat → List ℚ → FwrResult
  | _, 0, waits => ⟨none, waits⟩
  | i, fuel + 1, waits =>
    match orc i with
    | .ok => ⟨some i, waits⟩
    | .connErr =>
      if i + 1 < mr then fwrLoop bd orc mr (i + 1) fuel (waits ++ [bd * 2 ^ i])
      else ⟨none, waits⟩
    | .timeout =>
      if i + 1 < mr then fwrLoop bd orc mr (i + 1) fuel (waits ++ [bd * 2 ^ i])
      else ⟨none, waits⟩
    | .httpStatus s =>
      if s = 429 then fwrLoop bd orc mr (i + 1) fuel (waits ++ [bd * 3 ^ i])
      else if 500 ≤ s then fwrLoop bd orc mr (i + 1) fuel (waits ++ [bd * 2 ^ i])
      else ⟨none, waits⟩
    | .otherExc =>
      if i + 1 < mr then fwrLoop bd orc mr (i + 1) fuel (waits ++ [bd * 2 ^ i])
      else ⟨none, waits⟩

/-- `fetch_with_retry(url, params, max_retries=5, base_delay=1.0)`.  The
PubMed esearch/esummary/efetch helpers (`fetch_pubmed_ids`,
`fetch_article_details`, `fetch_abstracts`) all issue their requests
through this function. -/
def fetch_with_retry (mr : Nat) (bd : ℚ) (orc : Nat → FwrAttempt) : FwrResult :=
  fwrLoop bd orc mr 0 mr []

/-! ## `pubmed_client.py`: `get_all_pubmed_ids`

The esearch endpoint is modelled by a probe outcome (`none` when the
initial `retmax=1` request failed, `some count` for the server-reported
total) and a page oracle `page retmax retstart`, returning `none` when
the page fetch failed or its JSON lacked `esearchresult`/`idlist`. -/

/-- The paging loop of `get_all_pubmed_ids` (lines 155-181), with
`fuel` the number of remaining iterations of `range(num_batches)`. -/
def gapLoop (page : Nat → Nat → Option (List String)) (maxA : Int) (maxStep : Nat) :
    Nat → Nat → List String → List String
  | 0, _, acc => acc
  | fuel + 1, batchIdx, acc =>
    let retstart := batchIdx * maxStep
    let remaining : Int := maxA - acc.length
    if remaining ≤ 0 then acc
    else
      let toFetch : Int := min (maxStep : Int) remaining
      match page toFetch.toNat retstart with
      | none => acc
      | some idList =>
        let acc' := acc ++ idList
        if (idList.length : Int) < toFetch then acc'
        else gapLoop page maxA maxStep fuel (batchIdx + 1) acc'

/-- `get_all_pubmed_ids(query, max_articles=100, max_step=100)` (lines
117-183): probe for the total count (failure → `[]`), substitute the
sentinel `-1` by the total, compute `num_batches` with Python floor
division, and run the paging loop. -/
def get_all_pubmed_ids (probe : Option Nat) (page : Nat → Nat → Option (List String))
    (maxArticles : Int) (maxStep : Nat) : List String :=
  match probe with
  | none => []
  | some totalCount =>
    if totalCount = 0 then []
    else
      let maxA : Int := if maxArticles = -1 then (totalCount : Int) else maxArticles
      let numBatches : Int :=
        (min (totalCount : Int) maxA + (maxStep : Int) - 1).fdiv (maxStep : Int)
      gapLoop page maxA maxStep numBatches.toNat 0 []

/-! ## `pubmed_client.py`: `fetch_article_details` -/

/-- One author object of the esummary JSON (`author.get("name", "")`). -/
structure AuthorData where
  name : Option String
deriving DecidableEq, Repr

/-- One per-uid record of the esummary JSON; `none` fields were absent
from the dictionary (`elocationid` presence is tested explicitly by the
code). -/
structure SummaryRec where
  title : Option String
  fulljournalname : Option String
  pubdate : Option String
  elocationid : Option String
  authors : List AuthorData
deriving DecidableEq, Repr

/-- One parsed esummary batch response: the `uids` list and the mapping
from uid to record. -/
structure SummaryResponse where
  uids : List String
  recs : List (String × SummaryRec)
deriving Repr

/-- Python `dict.get` for the esummary `result` mapping (last binding
wins, as in `dictLookup`). -/
def recLookup (l : List (String × SummaryRec)) (k : String) : Option SummaryRec :=
  l.reverse.lookup k

/-- The `clean_article` construction of `fetch_article_details` (lines
232-248): whitespace-collapsed title, `doi: ` occurrences removed from
`elocationid` when that key is present, URL synthesised from the pmid,
author display names, empty abstract. -/
def buildArticle (pmid : String) (recs : List (String × SummaryRec)) : Article :=
  let ad : SummaryRec :=
    (recLookup recs pmid).getD ⟨none, none, none, none, []⟩
  { pmid := pmid,
    title := collapseWs (ad.title.getD (""))
    journal := ad.fulljournalname.getD ("")
    pub_date := ad.pubdate.getD ("")
    doi := match ad.elocationid with
           | some v => pyReplace v ("doi: ") ("")
           | none => ""
    url := if pmid ≠ "" then "https://pubmed.ncbi.nlm.nih.gov/" ++ pmid ++ "/" else ""
    authors := ad.authors.map (fun au => au.name.getD (""))
    abstract := "" }

/-- The batch slicing `pmids[batch_idx*batch_size:(batch_idx+1)*batch_size]`
iterated over `range(total_batches)` with
`total_batches = (len(pmids) + batch_size - 1) // batch_size`. -/
def articleBatches (pmids : List String) (b : Nat) : List (List String) :=
  (List.range ((pmids.length + b - 1) / b)).map (fun i => (pmids.drop (i * b)).take b)

/-- `fetch_article_details(pmids, batch_size=100)` (lines 186-262): for
each batch, ask the esummary oracle; a failed batch is skipped; for a
successful batch, one record per uid of the response, in response
order. -/
def fetch_article_details (resp : List String → Option SummaryResponse)
    (pmids : List String) (b : Nat) : List Article :=
  if pmids = [] then []
  else
    ((articleBatches pmids b).map (fun batch =>
      match resp batch with
      | none => []
      | some sr => sr.uids.map (fun u => buildArticle u sr.recs))).flatten

/-! ## `pubmed_client.py`: abstract extraction and `fetch_abstracts` -/

/-- One `<AbstractText>` node of the efetch XML: `label` is the result
of `section.get("Label", "")` (so `""` stands for an absent attribute)
and `text` is `section.text` (which `ElementTree` reports as `None` for
an empty node). -/
structure AbstractSection where
  label : String
  text : Option String
deriving DecidableEq, Repr

/-- One `<PubmedArticle>` of the efetch XML: its `<PMID>` text (absent
element → the article is skipped) and its `.//Abstract/AbstractText`
nodes in document order. -/
structure PubmedArticleX where
  pmid : Option String
  sections : List AbstractSection
deriving DecidableEq, Repr

/-- The per-article extraction of `extract_abstracts_from_xml` (lines
292-318): collect `"{label}: {text}"` for labelled non-empty sections
and the bare text for unlabelled non-empty ones; if nothing was
collected, retry with the *first* `AbstractText` node (the
`article.find` fallback); join the parts with single spaces, `""` when
there are none. -/
def extractArticleAbstract (a : PubmedArticleX) : String :=
  let parts : List String :=
    a.sections.foldl
      (fun ps s =>
        let st := s.text.getD ("")
        if s.label ≠ "" ∧ st ≠ "" then ps ++ [s.label ++ ": " ++ st]
        else if st ≠ "" then ps ++ [st]
        else ps)
      []
  let parts : List String :=
    if parts.isEmpty then
      match a.sections.head? with
      | some s => match s.text with
                  | some t => if t ≠ "" then [t] else []
                  | none => []
      | none => []
    else parts
  pyJoin (" ") parts

/-- `extract_abstracts_from_xml(xml_content)` (lines 265-323), applied
to the parsed list of `<PubmedArticle>` nodes: a pmid ↦ abstract
mapping (articles without a `<PMID>` are skipped). -/
def extract_abstracts_from_xml (arts : List PubmedArticleX) : List (String × String) :=
  arts.filterMap (fun a => a.pmid.map (fun p => (p, extractArticleAbstract a)))

/-- The rendering of one abstract sub-section as the spec describes it:
sections with empty text contribute nothing, non-empty text is rendered
as `"{label}: {text}"`, with the label omitted when absent.  Used to
state what `extractArticleAbstract` computes. -/
def renderSectionSpec (s : AbstractSection) : Option String :=
  let t := s.text.getD ("")
  if t = "" then none
  else if s.label ≠ "" then some (s.label ++ ": " ++ t) else some t

/-- `extract_abstract_from_text(text_content)` (lines 326-359): take
everything after the first `"Abstract"`, strip it, truncate at each of
the trailing-section markers in turn, then strip the remaining lines,
drop the blank ones and join with single spaces. -/
def extract_abstract_from_text (tc : String) : String :=
  if strContains tc ("Abstract") then
    let t := pyStrip (splitOnFirst tc ("Abstract")).2
    let t := [("\n\nMeSH"), ("\n\nPMID"), ("\n\nCopyright"), ("\n\nAuthor"), ("\n\n20")].foldl
      (fun t term => if strContains t term then (splitOnFirst t term).1 else t) t
    pyJoin (" ") (((pySplitChar t ('\n')).map pyStrip).filter (fun l => l ≠ ""))
  else ""

/-- A request issued by `fetch_abstracts`: the XML batch efetch, or the
per-record plain-text fallback efetch. -/
inductive AbsRequest where
  | xmlBatch : List String → AbsRequest
  | textSingle : String → AbsRequest
deriving DecidableEq, Repr

/-- The per-record part of the batch body (lines 402-425): fill the
abstract from the parsed mapping when the record's pmid maps to
non-empty text; otherwise issue the individual plain-text request,
filling from it on success and leaving the record unchanged on
failure. -/
def abstractStep (m : List (String × String)) (txt : String → Option String)
    (a : Article) : Article × List AbsRequest :=
  if (dictLookup m a.pmid).getD ("") ≠ "" then
    ({ a with abstract := (dictLookup m a.pmid).getD ("") }, ([] : List AbsRequest))
  else
    match txt a.pmid with
    | some tc => ({ a with abstract := extract_abstract_from_text tc },
                  [AbsRequest.textSingle a.pmid])
    | none => (a, [AbsRequest.textSingle a.pmid])

/-- The body of one iteration of the batch loop of `fetch_abstracts`
(lines 381-433): request the XML for the whole batch; on failure skip
the batch (no further requests); on success run `abstractStep` on each
record of the batch. -/
def processAbstractBatch (xml : List String → Option (List PubmedArticleX))
    (txt : String → Option String) (batch : List Article) :
    List Article × List AbsRequest :=
  let ids := batch.map (fun a => a.pmid)
  match xml ids with
  | none => (batch, [AbsRequest.xmlBatch ids])
  | some arts =>
    let m := extract_abstracts_from_xml arts
    (batch.map (fun a => (abstractStep m txt a).1),
     AbsRequest.xmlBatch ids :: (batch.map (fun a => (abstractStep m txt a).2)).flatten)

/-- The batch slices of `fetch_abstracts`
(`articles[batch_idx*batch_size:(batch_idx+1)*batch_size]`). -/
def abstractBatches (articles : List Article) (b : Nat) : List (List Article) :=
  (List.range ((articles.length + b - 1) / b)).map
    (fun i => (articles.drop (i * b)).take b)

/-- `fetch_abstracts(articles, batch_size=10)` (lines 362-433): process
every batch, returning the updated records and the chronological list
of requests issued. -/
def fetch_abstracts (xml : List String → Option (List PubmedArticleX))
    (txt : String → Option String) (articles : List Article) (b : Nat) :
    List Article × List AbsRequest :=
  let results := (abstractBatches articles b).map (processAbstractBatch xml txt)
  ((results.map Prod.fst).flatten, (results.map Prod.snd).flatten)

/-! ## Concrete instances used to evaluate the theorems below -/

/-- A five-identifier server content used by concrete instantiations. -/
def idsW : List String := ["a", "b", "c", "d", "e"]

/-- The honest esearch page oracle for a server holding `ids`: a page
request returns the requested slice of the (date-sorted) id list. -/
def honestPage (ids : List String) : Nat → Nat → Option (List String) :=
  fun r s => some ((ids.drop s).take r)

/-- A page oracle that behaves honestly for `idsW` except that every
request starting at offset 2 fails. -/
def pageFailW : Nat → Nat → Option (List String) :=
  fun r s => if s = 2 then none else honestPage idsW r s

/-- `fetch_with_retry` attempt outcomes: two rate-limit responses, then
success. -/
def fwrOrcW : Nat → FwrAttempt :=
  fun i => if i < 2 then FwrAttempt.httpStatus 429 else FwrAttempt.ok

/-- An oracle that is rate-limited on every attempt. -/
def fwr429W : Nat → FwrAttempt := fun _ => FwrAttempt.httpStatus 429

/-- A citation oracle that is rate-limited on every attempt. -/
def cit429W : Nat → CitAttempt := fun _ => CitAttempt.resp 429 none

/-- A citation oracle that raises on every attempt. -/
def citExcW : Nat → CitAttempt := fun _ => CitAttempt.exc

/-- An iCite oracle answering 200 with `citation_count = 5`. -/
def icOkW : Nat → CitAttempt := fun _ => CitAttempt.resp 200 (some 5)

/-- A search oracle that raises on every attempt. -/
def seExcW : Nat → SearchAttempt := fun _ => SearchAttempt.exc

/-- A search oracle answering 200 with an empty hit list (no hits). -/
def seNoHitsW : Nat → SearchAttempt := fun _ => SearchAttempt.resp 200 []

/-- A record carrying both a DOI and a PMID. -/
def aDoiPmidW : Article :=
  { pmid := "123", title := "T", journal := "", pub_date := "", doi := "10.1/x",
    url := "", authors := [], abstract := "" }

/-- The record of the spec's scenario: no DOI, no PMID, title
`"Foo Bar"`, authors `["Jane Smith"]`. -/
def aFooBarW : Article :=
  { pmid := "", title := "Foo Bar", journal := "", pub_date := "", doi := "",
    url := "", authors := ["Jane Smith"], abstract := "" }

/-- A record with pmid `"1"` and an empty abstract. -/
def aPmid1W : Article :=
  { pmid := "1", title := "", journal := "", pub_date := "", doi := "",
    url := "", authors := [], abstract := "" }

/-- An XML batch oracle whose fetches always fail. -/
def xmlFailW : List String → Option (List PubmedArticleX) := fun _ => none

/-- An XML batch oracle whose fetches succeed with no parsed articles. -/
def xmlEmptyW : List String → Option (List PubmedArticleX) := fun _ => some []

/-- A plain-text oracle that always succeeds. -/
def txtOkW : String → Option String := fun _ => some "Abstract\nfallback text"

/-- An esummary oracle answering every batch with its own uids and no
per-uid records. -/
def respHonestW : List String → Option SummaryResponse := fun b => some ⟨b, []⟩

/-! # Theorems -/

/-! ## Claim C10 -/

/-- Claim C10: each individual citation-source lookup returns `None`
immediately, with no request issued and no retry wait, when its key
input is empty: `fetch_citation_count_by_doi` for an empty DOI,
`fetch_citation_count_by_pmid` for an empty PMID, and
`fetch_citation_count_by_title_authors` for an empty title. -/
theorem c10_empty_key_short_circuits :
    (∀ mr bw sd cr, fetch_citation_count_by_doi ("") mr bw sd cr =
      ⟨none, [], []⟩) ∧
    (∀ mr bw ic, fetch_citation_count_by_pmid ("") mr bw ic = ⟨none, [], []⟩) ∧
    (∀ authors mr bw se, fetch_citation_count_by_title_authors ("") authors mr bw se =
      ⟨none, [], []⟩) :=
  ⟨fun _ _ _ _ => rfl, fun _ _ _ => rfl, fun _ _ _ _ => rfl⟩

/-! ## Claim C8 -/

theorem crossrefLoop_reqs (d : String) (mr : Nat) (bw : ℚ) (cr : Nat → CitAttempt) :
    ∀ fuel i waits reqs r, r ∈ (crossrefLoop d mr bw cr i fuel waits reqs).reqs →
      r ∈ reqs ∨ r = crUrl d := by
  intro fuel
  induction fuel with
  | zero => intro i waits reqs r hr; exact Or.inl hr
  | succ n ih =>
    intro i waits reqs r hr
    simp only [crossrefLoop] at hr
    have resolve : r ∈ reqs ++ [crUrl d] ∨ r = crUrl d → r ∈ reqs ∨ r = crUrl d := by
      intro h
      rcases h with h | h
      · rcases List.mem_append.1 h with h | h
        · exact Or.inl h
        · exact Or.inr (List.mem_singleton.1 h)
      · exact Or.inr h
    cases hcr : cr i with
    | exc =>
      simp only [hcr] at hr
      split at hr
      · exact resolve (ih _ _ _ r hr)
      · exact resolve (Or.inl hr)
    | resp s body =>
      simp only [hcr] at hr
      split at hr
      · exact resolve (Or.inl hr)
      · split at hr
        · exact resolve (ih _ _ _ r hr)
        · exact resolve (Or.inl hr)

theorem fetch_crossref_reqs (doi : String) (mr : Nat) (bw : ℚ) (cr : Nat → CitAttempt) :
    ∀ r ∈ (fetch_citation_count_from_crossref doi mr bw cr).reqs,
      r = crUrl (cleanDoi doi) := by
  intro r hr
  by_cases h : doi = ""
  · simp [fetch_citation_count_from_crossref, h] at hr
  · simp only [fetch_citation_count_from_crossref, if_neg h] at hr
    rcases crossrefLoop_reqs (cleanDoi doi) mr bw cr mr 0 [] [] r hr with h' | h'
    · simp at h'
    · exact h'

theorem doiLoop_reqs (d : String) (mr : Nat) (bw : ℚ) (sd cr : Nat → CitAttempt) :
    ∀ fuel i waits reqs r, r ∈ (doiLoop d mr bw sd cr i fuel waits reqs).reqs →
      r ∈ reqs ∨ r = ssUrl d ∨ r = crUrl (cleanDoi d) := by
  intro fuel
  induction fuel with
  | zero => intro i waits reqs r hr; exact Or.inl hr
  | succ n ih =>
    intro i waits reqs r hr
    simp only [doiLoop] at hr
    have resolve : r ∈ reqs ++ [ssUrl d] ∨ r = ssUrl d ∨ r = crUrl (cleanDoi d) →
        r ∈ reqs ∨ r = ssUrl d ∨ r = crUrl (cleanDoi d) := by
      intro h
      rcases h with h | h
      · rcases List.mem_append.1 h with h | h
        · exact Or.inl h
        · exact Or.inr (Or.inl (List.mem_singleton.1 h))
      · exact Or.inr h
    have fallb : ∀ w,
        r ∈ (w ++ (fetch_citation_count_from_crossref d 2 1 cr).reqs) →
        r ∈ w ∨ r = ssUrl d ∨ r = crUrl (cleanDoi d) := by
      intro w hw
      rcases List.mem_append.1 hw with h | h
      · exact Or.inl h
      · exact Or.inr (Or.inr (fetch_crossref_reqs d 2 1 cr r h))
    cases hsd : sd i with
    | exc =>
      simp only [hsd] at hr
      split at hr
      · exact resolve (ih _ _ _ r hr)
      · exact resolve (fallb _ hr)
    | resp s body =>
      simp only [hsd] at hr
      split at hr
      · exact resolve (Or.inl hr)
      · split at hr
        · exact resolve (ih _ _ _ r hr)
        · exact resolve (fallb _ hr)

/-- Claim C8: the prefixes `"doi: "` and `"DOI:"` are stripped from a
DOI before any citation lookup is issued: both sample inputs normalise
to `"10.1000/xyz"`, every request issued by
`fetch_citation_count_by_doi` uses the cleaned DOI (the Crossref
fallback re-cleans the already-cleaned DOI, which is idempotent on
these inputs), and every request issued by
`fetch_citation_count_from_crossref` uses the cleaned DOI. -/
theorem c8_doi_cleaning :
    cleanDoi ("doi: 10.1000/xyz") = "10.1000/xyz" ∧
    cleanDoi ("DOI:10.1000/xyz") = "10.1000/xyz" ∧
    (∀ doi mr (bw : ℚ) sd cr r, r ∈ (fetch_citation_count_by_doi doi mr bw sd cr).reqs →
      r = ssUrl (cleanDoi doi) ∨ r = crUrl (cleanDoi (cleanDoi doi))) ∧
    (∀ doi mr (bw : ℚ) cr r, r ∈ (fetch_citation_count_from_crossref doi mr bw cr).reqs →
      r = crUrl (cleanDoi doi)) ∧
    cleanDoi (cleanDoi ("doi: 10.1000/xyz")) = "10.1000/xyz" ∧
    cleanDoi (cleanDoi ("DOI:10.1000/xyz")) = "10.1000/xyz" := by
  refine ⟨by decide, by decide, ?_, ?_, by decide, by decide⟩
  · intro doi mr bw sd cr r hr
    by_cases h : doi = ""
    · simp [fetch_citation_count_by_doi, h] at hr
    · simp only [fetch_citation_count_by_doi, if_neg h] at hr
      rcases doiLoop_reqs (cleanDoi doi) mr bw sd cr mr 0 [] [] r hr with h' | h'
      · simp at h'
      · exact h'
  · intro doi mr bw cr r hr
    exact fetch_crossref_reqs doi mr bw cr r hr

/-- Witness for C8: a concrete run of `fetch_citation_count_by_doi` on
`"doi: 10.1000/xyz"` issues its first request at the cleaned URL. -/
theorem c8_doi_cleaning_witness :
    ssUrl ("10.1000/xyz") = ssUrl (cleanDoi ("doi: 10.1000/xyz")) ∨
    ssUrl ("10.1000/xyz") = crUrl (cleanDoi (cleanDoi ("doi: 10.1000/xyz"))) :=
  c8_doi_cleaning.2.2.1 ("doi: 10.1000/xyz") 3 1 citExcW citExcW
    (ssUrl ("10.1000/xyz")) (by decide)

/-! ## Claim C6 -/

theorem renderSectionSpec_eq_none {s : AbstractSection}
    (h : renderSectionSpec s = none) : s.text.getD ("") = "" := by
  by_contra ht
  simp only [renderSectionSpec, if_neg ht] at h
  split at h <;> simp at h

theorem abstractFold_eq_filterMap (sections : List AbstractSection) (acc : List String) :
    sections.foldl
      (fun ps s =>
        let st := s.text.getD ("")
        if s.label ≠ "" ∧ st ≠ "" then ps ++ [s.label ++ ": " ++ st]
        else if st ≠ "" then ps ++ [st]
        else ps) acc
    = acc ++ sections.filterMap renderSectionSpec := by
  induction sections generalizing acc with
  | nil => simp
  | cons s rest ih =>
    rw [List.foldl_cons]
    have hstep :
        (let st := s.text.getD ("")
         if s.label ≠ "" ∧ st ≠ "" then acc ++ [s.label ++ ": " ++ st]
         else if st ≠ "" then acc ++ [st]
         else acc) = acc ++ (renderSectionSpec s).toList := by
      by_cases ht : s.text.getD ("") = ""
      · simp [renderSectionSpec, ht]
      · by_cases hl : s.label = "" <;> simp [renderSectionSpec, ht, hl]
    rw [hstep, ih]
    cases hrs : renderSectionSpec s <;>
      simp [List.filterMap_cons, hrs]

/-- Claim C6: for every article of a structured XML abstract response,
extraction renders each sub-section with non-empty text as
`"{label}: {text}"` — omitting the label when absent — and joins the
parts with single spaces; when no `AbstractText` node exists the result
is the empty string; and the two-section input Background→A, Methods→B
reconciles to exactly `"Background: A Methods: B"`. -/
theorem c6_abstract_extraction :
    (∀ (pmid : Option String) (sections : List AbstractSection),
      extractArticleAbstract ⟨pmid, sections⟩ =
        pyJoin (" ") (sections.filterMap renderSectionSpec)) ∧
    (∀ pmid : Option String, extractArticleAbstract ⟨pmid, []⟩ = "") ∧
    extractArticleAbstract ⟨some "1", [⟨"Background", some "A"⟩, ⟨"Methods", some "B"⟩]⟩
      = "Background: A Methods: B" ∧
    extract_abstracts_from_xml [⟨some "1", [⟨"Background", some "A"⟩, ⟨"Methods", some "B"⟩]⟩]
      = [("1", "Background: A Methods: B")] := by
  refine ⟨?_, ?_, by decide, by decide⟩
  · intro pmid sections
    show pyJoin (" ") _ = _
    rw [abstractFold_eq_filterMap sections [], List.nil_append]
    cases hL : sections.filterMap renderSectionSpec with
    | cons x xs => simp [hL]
    | nil =>
      simp only [List.isEmpty_nil, if_true]
      have hnone := List.forall_none_of_filterMap_eq_nil hL
      cases sections with
      | nil => rfl
      | cons s rest =>
        have hs := renderSectionSpec_eq_none (hnone s (List.mem_cons_self s rest))
        simp only [List.head?_cons]
        cases hst : s.text with
        | none => rfl
        | some t =>
          rw [hst, Option.getD_some] at hs
          simp [hs]
  · intro pmid
    rfl

/-! ## Claim C9 -/

theorem strContains_iff (s pat : String) :
    strContains s pat = true ↔ ∃ p q : String, s = p ++ pat ++ q := by
  unfold strContains
  rw [List.any_eq_true]
  constructor
  · rintro ⟨t, ht, hp⟩
    rw [List.mem_tails] at ht
    rw [List.isPrefixOf_iff_prefix] at hp
    obtain ⟨q, hq⟩ := hp
    obtain ⟨p, hp'⟩ := ht
    refine ⟨⟨p⟩, ⟨q⟩, ?_⟩
    apply String.ext
    simp only [String.data_append]
    rw [List.append_assoc, hq, hp']
  · rintro ⟨p, q, rfl⟩
    refine ⟨pat.data ++ q.data, ?_, ?_⟩
    · rw [List.mem_tails]
      exact ⟨p.data, by simp⟩
    · rw [List.isPrefixOf_iff_prefix]
      exact ⟨q.data, rfl⟩

theorem filterFold_eq_filter (keywords : List String) (articles : List Article)
    (acc : List Article) :
    articles.foldl
      (fun acc a =>
        if contains_any_keyword (a.title ++ " " ++ a.abstract) keywords then
          acc ++ [a]
        else acc) acc
    = acc ++ articles.filter
        (fun a => contains_any_keyword (a.title ++ " " ++ a.abstract) keywords) := by
  induction articles generalizing acc with
  | nil => simp
  | cons a rest ih =>
    simp only [List.foldl_cons, List.filter_cons]
    by_cases h : contains_any_keyword (a.title ++ " " ++ a.abstract) keywords
    · simp [h, ih]
    · simp [h, ih]

/-- Claim C9: `filter_articles_by_keywords` returns the subsequence of
its input (order preserved, records unmodified) consisting of exactly
the articles for which some keyword occurs case-insensitively as a
substring of the title concatenated with a single space and the
abstract. -/
theorem c9_filter_articles :
    (∀ articles keywords, filter_articles_by_keywords articles keywords =
      articles.filter
        (fun a => contains_any_keyword (a.title ++ " " ++ a.abstract) keywords)) ∧
    (∀ articles keywords,
      (filter_articles_by_keywords articles keywords).Sublist articles) ∧
    (∀ text keywords, contains_any_keyword text keywords = true ↔
      ∃ kw ∈ keywords, ∃ p q : String, pyLower text = p ++ pyLower kw ++ q) := by
  have hfil : ∀ (articles : List Article) (keywords : List String),
      filter_articles_by_keywords articles keywords =
        articles.filter
          (fun a => contains_any_keyword (a.title ++ " " ++ a.abstract) keywords) := by
    intro articles keywords
    simpa using filterFold_eq_filter keywords articles []
  refine ⟨hfil, ?_, ?_⟩
  · intro articles keywords
    rw [hfil]
    exact List.filter_sublist articles
  · intro text keywords
    unfold contains_any_keyword
    rw [List.any_eq_true]
    constructor
    · rintro ⟨kw, hkw, hc⟩
      exact ⟨kw, hkw, (strContains_iff (pyLower text) (pyLower kw)).1 hc⟩
    · rintro ⟨kw, hkw, hpq⟩
      exact ⟨kw, hkw, (strContains_iff (pyLower text) (pyLower kw)).2 hpq⟩

/-! ## Claim C7 -/

theorem chunksFlatten {α : Type} (b : Nat) (l : List α) :
    ∀ n, ((List.range n).map (fun i => (l.drop (i * b)).take b)).flatten = l.take (n * b) := by
  intro n
  induction n with
  | zero => simp
  | succ n ih =>
    rw [List.range_succ, List.map_append, List.flatten_append]
    simp only [List.map_cons, List.map_nil, List.flatten_cons, List.flatten_nil,
      List.append_nil]
    rw [ih, Nat.succ_mul, List.take_add]

theorem le_ceilDiv_mul (L b : Nat) (hb : 0 < b) : L ≤ ((L + b - 1) / b) * b := by
  cases L with
  | zero => simp
  | succ n =>
    have h : (n + 1 + b - 1) / b = n / b + 1 := by
      rw [show n + 1 + b - 1 = n + b from by omega, Nat.add_div_right n hb]
    rw [h]
    have h3 : n < (n / b + 1) * b := (Nat.div_lt_iff_lt_mul hb).1 (Nat.lt_succ_self _)
    omega

theorem ceilDiv_mul_lt (L b : Nat) (hb : 0 < b) : ((L + b - 1) / b) * b < L + b := by
  have h := Nat.div_mul_le_self (L + b - 1) b
  omega

/-- The code's `(L + B - 1) // B` batch count is the mathematical
ceiling of `L / B`. -/
theorem ceilDiv_eq_ceil (L b : Nat) (hb : 0 < b) :
    ((L + b - 1) / b : Nat) = Nat.ceil ((L : ℚ) / (b : ℚ)) := by
  have hbq : (0 : ℚ) < (b : ℚ) := by exact_mod_cast hb
  have h1 : L ≤ ((L + b - 1) / b) * b := le_ceilDiv_mul L b hb
  have h2 : ((L + b - 1) / b) * b < L + b := ceilDiv_mul_lt L b hb
  set q := (L + b - 1) / b with hq
  apply le_antisymm
  · by_cases hq0 : q = 0
    · simp [hq0]
    · have hq1 : 1 ≤ q := Nat.one_le_iff_ne_zero.2 hq0
      have hY : b ≤ q * b := by
        calc b = 1 * b := (one_mul b).symm
        _ ≤ q * b := mul_le_mul_right' hq1 b
      have hlt : (q - 1 : Nat) < Nat.ceil ((L : ℚ) / (b : ℚ)) := by
        rw [Nat.lt_ceil, lt_div_iff₀ hbq]
        have hmul : (q - 1) * b = q * b - b := by rw [Nat.sub_mul, one_mul]
        have hnat : (q - 1) * b < L := by omega
        exact_mod_cast hnat
      omega
  · rw [Nat.ceil_le, div_le_iff₀ hbq]
    exact_mod_cast h1

theorem buildArticle_pmid (u : String) (recs : List (String × SummaryRec)) :
    (buildArticle u recs).pmid = u := rfl

/-- Claim C7: for every identifier list of length `L` and `batchSize > 0`,
`fetch_article_details` partitions the list into exactly `⌈L/B⌉`
contiguous batches, concatenating the batches in order reproduces the
input list, and (for an oracle answering each batch with its own
identifiers) the output records preserve batch order and, within a
batch, the response's identifier order. -/
theorem c7_batch_partition :
    (∀ (pmids : List String) (b : Nat), 0 < b →
      (articleBatches pmids b).length = Nat.ceil ((pmids.length : ℚ) / (b : ℚ))) ∧
    (∀ (pmids : List String) (b : Nat), 0 < b →
      (articleBatches pmids b).flatten = pmids) ∧
    (∀ (resp : List String → Option SummaryResponse)
      (recsFor : List String → List (String × SummaryRec))
      (pmids : List String) (b : Nat), 0 < b →
      (∀ batch : List String, resp batch = some ⟨batch, recsFor batch⟩) →
      (fetch_article_details resp pmids b).map (fun a => a.pmid) = pmids) := by
  have hflat : ∀ (pmids : List String) (b : Nat), 0 < b →
      (articleBatches pmids b).flatten = pmids := by
    intro pmids b hb
    rw [articleBatches, chunksFlatten b pmids]
    exact List.take_of_length_le (le_ceilDiv_mul pmids.length b hb)
  refine ⟨?_, hflat, ?_⟩
  · intro pmids b hb
    rw [articleBatches, List.length_map, List.length_range]
    exact ceilDiv_eq_ceil pmids.length b hb
  · intro resp recsFor pmids b hb hresp
    by_cases hnil : pmids = []
    · simp [fetch_article_details, hnil]
    · simp only [fetch_article_details, if_neg hnil]
      rw [List.map_flatten, List.map_map]
      have hfun : ∀ batch : List String,
          (List.map (fun a => a.pmid) ∘
            (fun batch =>
              match resp batch with
              | none => []
              | some sr => sr.uids.map (fun u => buildArticle u sr.recs))) batch = batch := by
        intro batch
        simp only [Function.comp_apply, hresp batch]
        rw [List.map_map]
        have hid : ∀ u ∈ batch,
            ((fun a => a.pmid) ∘ fun u => buildArticle u (recsFor batch)) u = id u :=
          fun u _ => rfl
        rw [List.map_congr_left hid, List.map_id]
      rw [List.map_congr_left (fun batch _ => hfun batch)]
      simpa using hflat pmids b hb

/-- Witness for C7: the honest esummary oracle over the five-identifier
list with batch size 2 reproduces the identifiers in order. -/
theorem c7_batch_partition_witness :
    (fetch_article_details respHonestW idsW 2).map (fun a => a.pmid) = idsW :=
  c7_batch_partition.2.2 respHonestW (fun _ => []) idsW 2 (by decide) (fun _ => rfl)

/-! ## Claim C3 -/

theorem fwrLoop_429_waits (bd : ℚ) (orc : Nat → FwrAttempt) (mr : Nat)
    (h : ∀ i, orc i = FwrAttempt.httpStatus 429) :
    ∀ fuel i waits, (fwrLoop bd orc mr i fuel waits).waits
      = waits ++ (List.range fuel).map (fun j => bd * 3 ^ (i + j)) := by
  intro fuel
  induction fuel with
  | zero => intro i waits; simp [fwrLoop]
  | succ n ih =>
    intro i waits
    simp only [fwrLoop, h i]
    rw [if_pos trivial, ih]
    calc (waits ++ [bd * 3 ^ i]) ++ (List.range n).map (fun j => bd * 3 ^ (i + 1 + j))
        = waits ++ ([bd * 3 ^ i] ++
            (List.range n).map (fun j => bd * 3 ^ (i + 1 + j))) := by
          rw [List.append_assoc]
      _ = waits ++ (List.range (n + 1)).map (fun j => bd * 3 ^ (i + j)) := by
          rw [List.range_succ_eq_map, List.map_cons, List.map_map]
          simp only [List.singleton_append, Nat.add_zero]
          exact congrArg (fun l => waits ++ l)
            (congrArg (List.cons (bd * 3 ^ i))
              (List.map_congr_left (fun j _ => by
                rw [show i + 1 + j = i + (j + 1) from by omega]
                rfl)))

theorem doiLoop_429_waits (d : String) (mr : Nat) (bw : ℚ) (sd cr : Nat → CitAttempt)
    (h : ∀ i, ∃ body, sd i = CitAttempt.resp 429 body) :
    ∀ fuel i waits reqs, (doiLoop d mr bw sd cr i fuel waits reqs).waits
      = waits ++ (List.range fuel).map (fun j => bw * 2 ^ (i + j)) := by
  intro fuel
  induction fuel with
  | zero => intro i waits reqs; simp [doiLoop]
  | succ n ih =>
    intro i waits reqs
    obtain ⟨body, hb⟩ := h i
    simp only [doiLoop, hb]
    rw [if_neg (by decide), if_pos trivial, ih]
    calc (waits ++ [bw * 2 ^ i]) ++ (List.range n).map (fun j => bw * 2 ^ (i + 1 + j))
        = waits ++ ([bw * 2 ^ i] ++
            (List.range n).map (fun j => bw * 2 ^ (i + 1 + j))) := by
          rw [List.append_assoc]
      _ = waits ++ (List.range (n + 1)).map (fun j => bw * 2 ^ (i + j)) := by
          rw [List.range_succ_eq_map, List.map_cons, List.map_map]
          simp only [List.singleton_append, Nat.add_zero]
          exact congrArg (fun l => waits ++ l)
            (congrArg (List.cons (bw * 2 ^ i))
              (List.map_congr_left (fun j _ => by
                rw [show i + 1 + j = i + (j + 1) from by omega]
                rfl)))

theorem pmidLoop_429_waits (p : String) (mr : Nat) (bw : ℚ) (ic : Nat → CitAttempt)
    (h : ∀ i, ∃ body, ic i = CitAttempt.resp 429 body) :
    ∀ fuel i waits reqs, (pmidLoop p mr bw ic i fuel waits reqs).waits
      = waits ++ (List.range fuel).map (fun j => bw * 2 ^ (i + j)) := by
  intro fuel
  induction fuel with
  | zero => intro i waits reqs; simp [pmidLoop]
  | succ n ih =>
    intro i waits reqs
    obtain ⟨body, hb⟩ := h i
    simp only [pmidLoop, hb]
    rw [if_neg (by decide), if_pos trivial, ih]
    calc (waits ++ [bw * 2 ^ i]) ++ (List.range n).map (fun j => bw * 2 ^ (i + 1 + j))
        = waits ++ ([bw * 2 ^ i] ++
            (List.range n).map (fun j => bw * 2 ^ (i + 1 + j))) := by
          rw [List.append_assoc]
      _ = waits ++ (List.range (n + 1)).map (fun j => bw * 2 ^ (i + j)) := by
          rw [List.range_succ_eq_map, List.map_cons, List.map_map]
          simp only [List.singleton_append, Nat.add_zero]
          exact congrArg (fun l => waits ++ l)
            (congrArg (List.cons (bw * 2 ^ i))
              (List.map_congr_left (fun j _ => by
                rw [show i + 1 + j = i + (j + 1) from by omega]
                rfl)))

theorem crossrefLoop_429_waits (d : String) (mr : Nat) (bw : ℚ) (cr : Nat → CitAttempt)
    (h : ∀ i, ∃ body, cr i = CitAttempt.resp 429 body) :
    ∀ fuel i waits reqs, (crossrefLoop d mr bw cr i fuel waits reqs).waits
      = waits ++ (List.range fuel).map (fun j => bw * 2 ^ (i + j)) := by
  intro fuel
  induction fuel with
  | zero => intro i waits reqs; simp [crossrefLoop]
  | succ n ih =>
    intro i waits reqs
    obtain ⟨body, hb⟩ := h i
    simp only [crossrefLoop, hb]
    rw [if_neg (by decide), if_pos trivial, ih]
    calc (waits ++ [bw * 2 ^ i]) ++ (List.range n).map (fun j => bw * 2 ^ (i + 1 + j))
        = waits ++ ([bw * 2 ^ i] ++
            (List.range n).map (fun j => bw * 2 ^ (i + 1 + j))) := by
          rw [List.append_assoc]
      _ = waits ++ (List.range (n + 1)).map (fun j => bw * 2 ^ (i + j)) := by
          rw [List.range_succ_eq_map, List.map_cons, List.map_map]
          simp only [List.singleton_append, Nat.add_zero]
          exact congrArg (fun l => waits ++ l)
            (congrArg (List.cons (bw * 2 ^ i))
              (List.map_congr_left (fun j _ => by
                rw [show i + 1 + j = i + (j + 1) from by omega]
                rfl)))

theorem searchLoop_429_waits (q : String) (mr : Nat) (bw : ℚ) (se : Nat → SearchAttempt)
    (h : ∀ i, ∃ hits, se i = SearchAttempt.resp 429 hits) :
    ∀ fuel i waits reqs, (searchLoop q mr bw se i fuel waits reqs).waits
      = waits ++ (List.range fuel).map (fun j => bw * 2 ^ (i + j)) := by
  intro fuel
  induction fuel with
  | zero => intro i waits reqs; simp [searchLoop]
  | succ n ih =>
    intro i waits reqs
    obtain ⟨hits, hb⟩ := h i
    simp only [searchLoop, hb]
    rw [if_neg (by decide), if_pos trivial, ih]
    calc (waits ++ [bw * 2 ^ i]) ++ (List.range n).map (fun j => bw * 2 ^ (i + 1 + j))
        = waits ++ ([bw * 2 ^ i] ++
            (List.range n).map (fun j => bw * 2 ^ (i + 1 + j))) := by
          rw [List.append_assoc]
      _ = waits ++ (List.range (n + 1)).map (fun j => bw * 2 ^ (i + j)) := by
          rw [List.range_succ_eq_map, List.map_cons, List.map_map]
          simp only [List.singleton_append, Nat.add_zero]
          exact congrArg (fun l => waits ++ l)
            (congrArg (List.cons (bw * 2 ^ i))
              (List.map_congr_left (fun j _ => by
                rw [show i + 1 + j = i + (j + 1) from by omega]
                rfl)))

/-- Counterexample to claim C3: the identifier/metadata/abstract
endpoints issue their requests through `fetch_with_retry`, whose 429
backoff at `base_delay = 1` waits `[1, 3]` across the first two
attempts — not the `[1, 2]` that a backoff factor of exactly 2 for
those endpoints would give. -/
theorem c3_counterexample :
    (fetch_with_retry 5 1 fwrOrcW).waits = [1, 3] ∧
    (fetch_with_retry 5 1 fwrOrcW).waits ≠ [1, 2] := by
  constructor <;> simp [fetch_with_retry, fwrLoop, fwrOrcW]

/-- Claim C3 as amended: on HTTP 429 a retry attempt is consumed and
the wait before the next attempt is `baseDelay * backoffFactor^attempt`,
where the factor is exactly 3 in the main retry client
`fetch_with_retry` — which serves the identifier/metadata/abstract
endpoints — and exactly 2 in each citation-source lookup's own 429
handling. -/
theorem c3_backoff_factors :
    (∀ mr (bd : ℚ) orc, (∀ i, orc i = FwrAttempt.httpStatus 429) →
      (fetch_with_retry mr bd orc).waits =
        (List.range mr).map (fun i => bd * 3 ^ i)) ∧
    (∀ doi mr (bw : ℚ) sd cr, doi ≠ "" →
      (∀ i, ∃ body, sd i = CitAttempt.resp 429 body) →
      (fetch_citation_count_by_doi doi mr bw sd cr).waits =
        (List.range mr).map (fun i => bw * 2 ^ i)) ∧
    (∀ pmid mr (bw : ℚ) ic, pmid ≠ "" →
      (∀ i, ∃ body, ic i = CitAttempt.resp 429 body) →
      (fetch_citation_count_by_pmid pmid mr bw ic).waits =
        (List.range mr).map (fun i => bw * 2 ^ i)) ∧
    (∀ doi mr (bw : ℚ) cr, doi ≠ "" →
      (∀ i, ∃ body, cr i = CitAttempt.resp 429 body) →
      (fetch_citation_count_from_crossref doi mr bw cr).waits =
        (List.range mr).map (fun i => bw * 2 ^ i)) ∧
    (∀ title authors mr (bw : ℚ) se, title ≠ "" →
      (∀ i, ∃ hits, se i = SearchAttempt.resp 429 hits) →
      (fetch_citation_count_by_title_authors title authors mr bw se).waits =
        (List.range mr).map (fun i => bw * 2 ^ i)) := by
  refine ⟨?_, ?_, ?_, ?_, ?_⟩
  · intro mr bd orc h
    rw [fetch_with_retry, fwrLoop_429_waits bd orc mr h mr 0 []]
    simp
  · intro doi mr bw sd cr hne h
    rw [fetch_citation_count_by_doi, if_neg hne,
      doiLoop_429_waits (cleanDoi doi) mr bw sd cr h mr 0 [] []]
    simp
  · intro pmid mr bw ic hne h
    rw [fetch_citation_count_by_pmid, if_neg hne,
      pmidLoop_429_waits pmid mr bw ic h mr 0 [] []]
    simp
  · intro doi mr bw cr hne h
    rw [fetch_citation_count_from_crossref, if_neg hne,
      crossrefLoop_429_waits (cleanDoi doi) mr bw cr h mr 0 [] []]
    simp
  · intro title authors mr bw se hne h
    rw [fetch_citation_count_by_title_authors, if_neg hne,
      searchLoop_429_waits _ mr bw se h mr 0 [] []]
    simp

/-- Witness for the amended C3: concrete all-429 runs of the main
retry client and of the iCite lookup. -/
theorem c3_backoff_factors_witness :
    (fetch_with_retry 2 1 fwr429W).waits = (List.range 2).map (fun i => 1 * 3 ^ i) ∧
    (fetch_citation_count_by_pmid ("123") 2 1 cit429W).waits =
      (List.range 2).map (fun i => 1 * 2 ^ i) :=
  ⟨c3_backoff_factors.1 2 1 fwr429W (fun _ => rfl),
   c3_backoff_factors.2.2.1 ("123") 2 1 cit429W (by decide) (fun _ => ⟨none, rfl⟩)⟩

/-! ## Claim C1 -/

theorem enrichList_getElem (env : Nat → CitEnv) :
    ∀ (articles : List Article) (k i : Nat),
      (enrichList env k articles)[i]? =
        (articles[i]?).map (enrichArticle (env (k + i))) := by
  intro articles
  induction articles with
  | nil => intro k i; simp [enrichList]
  | cons a rest ih =>
    intro k i
    cases i with
    | zero => simp [enrichList]
    | succ j =>
      simp only [enrichList, List.getElem?_cons_succ]
      rw [ih (k + 1) j, show k + 1 + j = k + (j + 1) from by omega]

/-- Counterexample to claim C1: a record holding both a DOI and a PMID
whose DOI lookups all fail (every Semantic Scholar and Crossref attempt
raises) while the iCite lookup answers `5`.  The chain stores the count
`5` obtained from iCite but tags `citation_source = "semantic_scholar"`
— the tag is chosen by key presence, not by the source that actually
answered.  The same run also refutes the claim's scenario: for the
record with no DOI, no PMID, title `"Foo Bar"`, authors
`["Jane Smith"]`, a source-C response with no hits yields the answer
`0`, so the code stores `citation_source = "title_search"`, not
`"none"`. -/
theorem c1_counterexample :
    (fetch_citation_count_by_doi aDoiPmidW.doi 3 1 citExcW citExcW).result = none ∧
    (fetch_citation_count_by_pmid aDoiPmidW.pmid 3 1 icOkW).result = some 5 ∧
    (enrichArticle ⟨citExcW, citExcW, icOkW, seExcW⟩ aDoiPmidW).citation_count = some 5 ∧
    (enrichArticle ⟨citExcW, citExcW, icOkW, seExcW⟩ aDoiPmidW).citation_source =
      some ("semantic_scholar") ∧
    ("semantic_scholar" : String) ≠ "icite" ∧
    (fetch_citation_count_by_title_authors aFooBarW.title aFooBarW.authors 2 1
      seNoHitsW).result = some 0 ∧
    (enrichArticle ⟨citExcW, citExcW, citExcW, seNoHitsW⟩ aFooBarW).citation_source =
      some ("title_search") ∧
    (("title_search" : String) ≠ "none") := by decide

/-- Claim C1 as amended: if some source in the chain yields an answer
(including a legitimate 0), `citation_count` is set to that value, and
if all attempted sources yield no answer, `citation_count = 0` and
`citation_source = "none"`; but when an answer was obtained,
`citation_source` is chosen by identifier presence —
`"semantic_scholar"` whenever the record has a non-empty DOI,
otherwise `"icite"` whenever it has a non-empty PMID, otherwise
`"title_search"` — regardless of which source actually produced the
count.  In the Foo-Bar scenario a source-C 200 response with no hits
counts as an answer of 0, so the result is `citation_count = 0` with
`citation_source = "title_search"` (only a failing source C gives
`"none"`).  The final conjunct relates the list-level
`enrich_articles_with_citations` to the per-record enrichment. -/
theorem c1_enrichment :
    (∀ (env : CitEnv) (a : Article) (n : Int),
      a.doi ≠ "" →
      (fetch_citation_count_by_doi a.doi 3 1 env.sd env.cr).result = some n →
      (enrichArticle env a).citation_count = some n ∧
      (enrichArticle env a).citation_source = some ("semantic_scholar")) ∧
    (∀ (env : CitEnv) (a : Article) (n : Int),
      (a.doi = "" ∨ (fetch_citation_count_by_doi a.doi 3 1 env.sd env.cr).result = none) →
      a.pmid ≠ "" →
      (fetch_citation_count_by_pmid a.pmid 3 1 env.ic).result = some n →
      (enrichArticle env a).citation_count = some n ∧
      (enrichArticle env a).citation_source =
        some (if a.doi ≠ "" then "semantic_scholar" else "icite")) ∧
    (∀ (env : CitEnv) (a : Article) (n : Int),
      (a.doi = "" ∨ (fetch_citation_count_by_doi a.doi 3 1 env.sd env.cr).result = none) →
      (a.pmid = "" ∨ (fetch_citation_count_by_pmid a.pmid 3 1 env.ic).result = none) →
      (fetch_citation_count_by_title_authors a.title a.authors 2 1 env.se).result
        = some n →
      (enrichArticle env a).citation_count = some n ∧
      (enrichArticle env a).citation_source =
        some (if a.doi ≠ "" then "semantic_scholar"
              else if a.pmid ≠ "" then "icite" else "title_search")) ∧
    (∀ (env : CitEnv) (a : Article),
      (a.doi = "" ∨ (fetch_citation_count_by_doi a.doi 3 1 env.sd env.cr).result = none) →
      (a.pmid = "" ∨ (fetch_citation_count_by_pmid a.pmid 3 1 env.ic).result = none) →
      (fetch_citation_count_by_title_authors a.title a.authors 2 1 env.se).result
        = none →
      (enrichArticle env a).citation_count = some 0 ∧
      (enrichArticle env a).citation_source = some ("none")) ∧
    (∀ env : CitEnv,
      (enrichArticle { env with se := seNoHitsW } aFooBarW).citation_count = some 0 ∧
      (enrichArticle { env with se := seNoHitsW } aFooBarW).citation_source =
        some ("title_search")) ∧
    (∀ (env : Nat → CitEnv) (articles : List Article) (i : Nat),
      (enrich_articles_with_citations env articles)[i]? =
        (articles[i]?).map (enrichArticle (env i))) := by
  refine ⟨?_, ?_, ?_, ?_, ?_, ?_⟩
  · intro env a n hd hres
    simp [enrichArticle, hd, hres]
  · intro env a n hor hp hres
    rcases hor with hd | hd
    · simp [enrichArticle, hd, hp, hres]
    · by_cases hdd : a.doi = "" <;> simp [enrichArticle, hdd, hd, hp, hres]
  · intro env a n hor1 hor2 hres
    rcases hor1 with hd | hd <;> rcases hor2 with hp | hp
    · simp [enrichArticle, hd, hp, hres]
    · by_cases hpp : a.pmid = "" <;> simp [enrichArticle, hd, hp, hpp, hres]
    · by_cases hdd : a.doi = "" <;> simp [enrichArticle, hd, hdd, hp, hres]
    · by_cases hdd : a.doi = "" <;> by_cases hpp : a.pmid = "" <;>
        simp [enrichArticle, hd, hdd, hp, hpp, hres]
  · intro env a hor1 hor2 hres
    rcases hor1 with hd | hd <;> rcases hor2 with hp | hp
    · simp [enrichArticle, hd, hp, hres]
    · by_cases hpp : a.pmid = "" <;> simp [enrichArticle, hd, hp, hpp, hres]
    · by_cases hdd : a.doi = "" <;> simp [enrichArticle, hd, hdd, hp, hres]
    · by_cases hdd : a.doi = "" <;> by_cases hpp : a.pmid = "" <;>
        simp [enrichArticle, hd, hdd, hp, hpp, hres]
  · intro env
    have h3 : (fetch_citation_count_by_title_authors aFooBarW.title aFooBarW.authors
        2 1 seNoHitsW).result = some 0 := by decide
    constructor <;> simp [enrichArticle, aFooBarW] <;>
      simp [aFooBarW] at h3 <;> simp [h3]
  · intro env articles i
    have h := enrichList_getElem env articles 0 i
    rw [Nat.zero_add] at h
    exact h

/-- Witness for the amended C1: the record carrying both identifiers,
with failing DOI lookups and an iCite answer of 5, stores count 5 and
the presence-selected `"semantic_scholar"` tag. -/
theorem c1_enrichment_witness :
    (enrichArticle ⟨citExcW, citExcW, icOkW, seExcW⟩ aDoiPmidW).citation_count = some 5 ∧
    (enrichArticle ⟨citExcW, citExcW, icOkW, seExcW⟩ aDoiPmidW).citation_source =
      some (if aDoiPmidW.doi ≠ "" then "semantic_scholar" else "icite") :=
  c1_enrichment.2.1 ⟨citExcW, citExcW, icOkW, seExcW⟩ aDoiPmidW 5
    (Or.inr (by decide)) (by decide) (by decide)

/-! ## Claim C2 -/

/-- Counterexample to claim C2: a single-record batch whose XML batch
fetch fails outright.  The claim requires an individual plain-text
request for the record's id before its abstract is left empty; the code
skips the batch entirely — the request trace holds only the XML batch
request, no `textSingle` request is issued, and the abstract stays
empty even though the plain-text oracle would have answered. -/
theorem c2_counterexample :
    (fetch_abstracts xmlFailW txtOkW [aPmid1W] 10).2 = [AbsRequest.xmlBatch ["1"]] ∧
    AbsRequest.textSingle ("1") ∉ (fetch_abstracts xmlFailW txtOkW [aPmid1W] 10).2 ∧
    (fetch_abstracts xmlFailW txtOkW [aPmid1W] 10).1.map (fun a => a.abstract)
      = [""] := by decide

/-- Claim C2 as amended: the individual plain-text fallback request is
issued exactly for records in a batch whose XML fetch *succeeded* but
whose id is absent from the parsed result or maps to empty text; when
the structured batch fetch fails outright the whole batch is skipped
with a warning and no individual request is issued for its records.
The last conjunct decomposes the full `fetch_abstracts` request trace
into the per-batch traces. -/
theorem c2_abstract_fallback :
    (∀ xml txt (batch : List Article),
      xml (batch.map (fun a => a.pmid)) = none →
      (processAbstractBatch xml txt batch).2 =
        [AbsRequest.xmlBatch (batch.map (fun a => a.pmid))]) ∧
    (∀ xml txt (batch : List Article) (arts : List PubmedArticleX) (a : Article),
      a ∈ batch →
      xml (batch.map (fun a => a.pmid)) = some arts →
      (dictLookup (extract_abstracts_from_xml arts) a.pmid).getD ("") = "" →
      AbsRequest.textSingle a.pmid ∈ (processAbstractBatch xml txt batch).2) ∧
    (∀ xml txt (articles : List Article) (b : Nat),
      (fetch_abstracts xml txt articles b).2 =
        ((abstractBatches articles b).map
          (fun batch => (processAbstractBatch xml txt batch).2)).flatten) := by
  refine ⟨?_, ?_, ?_⟩
  · intro xml txt batch h
    simp [processAbstractBatch, h]
  · intro xml txt batch arts a ha hx hl
    simp only [processAbstractBatch, hx]
    apply List.mem_cons_of_mem
    rw [List.mem_flatten]
    refine ⟨(abstractStep (extract_abstracts_from_xml arts) txt a).2,
      List.mem_map_of_mem _ ha, ?_⟩
    rw [abstractStep, if_neg (fun hcon => hcon hl)]
    cases htxt : txt a.pmid <;> simp
  · intro xml txt articles b
    simp [fetch_abstracts, List.map_map, Function.comp_def]

/-- Witness for the amended C2: a batch whose XML fetch succeeds with
no parsed articles triggers the individual plain-text request for its
record. -/
theorem c2_abstract_fallback_witness :
    AbsRequest.textSingle aPmid1W.pmid ∈
      (processAbstractBatch xmlEmptyW txtOkW [aPmid1W]).2 :=
  c2_abstract_fallback.2.1 xmlEmptyW txtOkW [aPmid1W] [] aPmid1W
    (by decide) rfl (by decide)

/-! ## Claims C4 and C5 -/

/-- Once as many identifiers as the cap have been collected, the
paging loop stops at the `remaining <= 0` check. -/
theorem gapLoop_stop (page : Nat → Nat → Option (List String)) (maxA : Int)
    (step : Nat) :
    ∀ (fuel k : Nat) (acc : List String), maxA ≤ (acc.length : Int) →
      gapLoop page maxA step fuel k acc = acc := by
  intro fuel k acc h
  cases fuel with
  | zero => rfl
  | succ n =>
    simp only [gapLoop]
    rw [if_pos (by omega)]

/-- The Python `//` in the `num_batches` computation, on the
non-negative operands produced by `get_all_pubmed_ids`, is Nat
division. -/
theorem numBatches_toNat (t m step : Nat) :
    ((min (t : Int) (m : Int) + (step : Int) - 1).fdiv (step : Int)).toNat
      = (min t m + step - 1) / step := by
  by_cases h0 : min t m + step = 0
  · have hs : step = 0 := by omega
    have htm : min (t : Int) (m : Int) = 0 := by omega
    have ht : min t m = 0 := by omega
    rw [hs, htm, ht]
    decide
  · have h1 : min (t : Int) (m : Int) + (step : Int) - 1
        = ((min t m + step - 1 : Nat) : Int) := by omega
    rw [h1, Int.fdiv_eq_tdiv (by omega) (by omega)]
    rfl

/-- Invariant proof for the paging loop against an honest server
holding `ids`: starting aligned at batch `k` with enough fuel, the loop
returns exactly the first `min M ids.length` identifiers. -/
theorem gapLoop_honest (ids : List String) (page : Nat → Nat → Option (List String))
    (hpage : ∀ r s, page r s = some ((ids.drop s).take r))
    (M step : Nat) (hstep : 0 < step) :
    ∀ (fuel k : Nat) (acc : List String),
      acc = ids.take (k * step) →
      k * step ≤ min M ids.length →
      min M ids.length ≤ fuel * step + k * step →
      gapLoop page (M : Int) step fuel k acc = ids.take (min M ids.length) := by
  intro fuel
  induction fuel with
  | zero =>
    intro k acc hacc hk hfuel
    have hmk : min M ids.length = k * step := by omega
    rw [hacc, hmk]
    rfl
  | succ n ih =>
    intro k acc hacc hk hfuel
    have hkT : k * step ≤ ids.length := le_trans hk (min_le_right M ids.length)
    have hlen : acc.length = k * step := by
      rw [hacc, List.length_take]
      omega
    have hmul1 : (k + 1) * step = k * step + step := Nat.succ_mul k step
    have hmul2 : (n + 1) * step = n * step + step := Nat.succ_mul n step
    simp only [gapLoop]
    split
    · next hrem =>
      have hmk : min M ids.length = k * step := by omega
      rw [hacc, hmk]
    · next hrem =>
      split
      · next heq =>
        rw [hpage] at heq
        simp at heq
      · next idList heq =>
        rw [hpage] at heq
        injection heq with heq
        subst heq
        have hlLen :
            ((ids.drop (k * step)).take
              (min ((step : Nat) : Int) ((M : Int) - ((acc.length : Nat) : Int))).toNat).length
            = min (min ((step : Nat) : Int) ((M : Int) - ((acc.length : Nat) : Int))).toNat
                (ids.length - k * step) := by
          simp [List.length_take, List.length_drop]
        split
        · next hshort =>
          rw [List.length_take, List.length_drop] at hshort
          have hmT : min M ids.length = ids.length := by omega
          have hslice : (ids.drop (k * step)).take
              (min ((step : Nat) : Int) ((M : Int) - ((acc.length : Nat) : Int))).toNat
              = ids.drop (k * step) := by
            apply List.take_of_length_le
            rw [List.length_drop]
            omega
          rw [hslice, hacc, List.take_append_drop, hmT]
          exact (List.take_length ids).symm
        · next hshort =>
          rw [List.length_take, List.length_drop] at hshort
          by_cases htfstep :
              (min ((step : Nat) : Int) ((M : Int) - ((acc.length : Nat) : Int))).toNat = step
          · rw [ih (k + 1) _ ?hacc2 (by omega) (by omega)]
            case hacc2 =>
              rw [htfstep, hacc, ← List.take_add]
              congr 1
              omega
          · rw [gapLoop_stop]
            · rw [hlen, hacc, ← List.take_add]
              congr 1
              omega
            · rw [List.length_append, hlen, List.length_take, List.length_drop]
              omega

/-- When every page answers at most the requested number of
identifiers, the collected list never exceeds the cap. -/
theorem gapLoop_le (page : Nat → Nat → Option (List String))
    (hpage : ∀ r s l, page r s = some l → l.length ≤ r) (maxA : Int) (step : Nat) :
    ∀ (fuel k : Nat) (acc : List String), (acc.length : Int) ≤ maxA →
      ((gapLoop page maxA step fuel k acc).length : Int) ≤ maxA := by
  intro fuel
  induction fuel with
  | zero => intro k acc h; exact h
  | succ n ih =>
    intro k acc h
    simp only [gapLoop]
    split
    · next hrem => exact h
    · next hrem =>
      split
      · next heq => exact h
      · next idList heq =>
        have hlen := hpage _ _ _ heq
        split
        · next hshort =>
          rw [List.length_append]
          omega
        · next hshort =>
          apply ih
          rw [List.length_append]
          omega

/-- Claim C4: against a server reporting `totalServerCount`
identifiers, `get_all_pubmed_ids` returns at most `maxResults`
identifiers whenever each page answers at most what was requested; it
returns exactly `min maxResults totalServerCount` identifiers (in
fact, the first ones in server order) when every page fetch succeeds
honestly; and with the sentinel `-1` it returns exactly the
`totalServerCount` identifiers. -/
theorem c4_collect_ids :
    (∀ (ids : List String) (page : Nat → Nat → Option (List String))
       (maxA : Int) (step : Nat), 0 ≤ maxA →
      (∀ r s l, page r s = some l → l.length ≤ r) →
      ((get_all_pubmed_ids (some ids.length) page maxA step).length : Int) ≤ maxA) ∧
    (∀ (ids : List String) (page : Nat → Nat → Option (List String))
       (maxA : Int) (step : Nat), 0 < step → 0 ≤ maxA →
      (∀ r s, page r s = some ((ids.drop s).take r)) →
      (get_all_pubmed_ids (some ids.length) page maxA step)
        = ids.take (min maxA.toNat ids.length)) ∧
    (∀ (ids : List String) (page : Nat → Nat → Option (List String)) (step : Nat),
      0 < step →
      (∀ r s, page r s = some ((ids.drop s).take r)) →
      get_all_pubmed_ids (some ids.length) page (-1) step = ids) := by
  have hexact : ∀ (ids : List String) (page : Nat → Nat → Option (List String))
      (m step : Nat), 0 < step → ids.length ≠ 0 →
      (∀ r s, page r s = some ((ids.drop s).take r)) →
      gapLoop page ((m : Nat) : Int) step
          ((min ((ids.length : Nat) : Int) ((m : Nat) : Int) + (step : Int) - 1).fdiv
            (step : Int)).toNat 0 []
        = ids.take (min m ids.length) := by
    intro ids page m step hstep hT hpage
    apply gapLoop_honest ids page hpage m step hstep _ 0 []
    · simp
    · simp
    · rw [numBatches_toNat ids.length m step]
      have h := le_ceilDiv_mul (min ids.length m) step hstep
      have hcomm : min ids.length m = min m ids.length := Nat.min_comm _ _
      omega
  refine ⟨?_, ?_, ?_⟩
  · intro ids page maxA step hm hpage
    simp only [get_all_pubmed_ids]
    split
    · next hT =>
      simp
      omega
    · next hT =>
      rw [if_neg (by omega : ¬maxA = -1)]
      apply gapLoop_le page hpage
      simpa using hm
  · intro ids page maxA step hstep hm hpage
    simp only [get_all_pubmed_ids]
    split
    · next hT =>
      have : ids.length = 0 := hT
      simp [this]
    · next hT =>
      rw [if_neg (by omega : ¬maxA = -1)]
      have hcast : maxA = ((maxA.toNat : Nat) : Int) := by omega
      rw [hcast]
      exact hexact ids page maxA.toNat step hstep hT hpage
  · intro ids page step hstep hpage
    simp only [get_all_pubmed_ids]
    split
    · next hT =>
      have : ids.length = 0 := hT
      exact (List.eq_nil_of_length_eq_zero this).symm
    · next hT =>
      rw [if_pos trivial]
      rw [hexact ids page ids.length step hstep hT hpage]
      rw [Nat.min_self]
      exact List.take_length ids

/-- Witness for C4: the honest five-identifier server with page size 2
and cap 3 yields exactly the first three identifiers, and the sentinel
`-1` yields all five. -/
theorem c4_collect_ids_witness :
    (get_all_pubmed_ids (some idsW.length) (honestPage idsW) 3 2)
        = idsW.take (min (Int.toNat 3) idsW.length) ∧
    get_all_pubmed_ids (some idsW.length) (honestPage idsW) (-1) 2 = idsW :=
  ⟨c4_collect_ids.2.1 idsW (honestPage idsW) 3 2 (by decide) (by decide)
      (fun _ _ => rfl),
   c4_collect_ids.2.2 idsW (honestPage idsW) 2 (by decide) (fun _ _ => rfl)⟩

/-- The paging loop against a server honest below offset `j*step` and
failing at offset `j*step`: the loop stops there and keeps the
identifiers of the preceding pages. -/
theorem gapLoop_fail (ids : List String) (page : Nat → Nat → Option (List String))
    (M step j : Nat) (hstep : 0 < step)
    (hpage : ∀ r s, s < j * step → page r s = some ((ids.drop s).take r))
    (hfail : ∀ r, page r (j * step) = none)
    (hj : j * step < min M ids.length) :
    ∀ (fuel k : Nat) (acc : List String), k ≤ j → acc = ids.take (k * step) →
      j < fuel + k →
      gapLoop page (M : Int) step fuel k acc = ids.take (j * step) := by
  intro fuel
  induction fuel with
  | zero => intro k acc hkj hacc hjf; omega
  | succ n ih =>
    intro k acc hkj hacc hjf
    have hks : k * step ≤ j * step := Nat.mul_le_mul_right step hkj
    have hkT : k * step ≤ ids.length := by
      have := min_le_right M ids.length
      omega
    have hlen : acc.length = k * step := by
      rw [hacc, List.length_take]
      omega
    simp only [gapLoop]
    split
    · next hrem =>
      exfalso
      have := min_le_left M ids.length
      omega
    · next hrem =>
      by_cases hkj' : k = j
      · subst hkj'
        split
        · next heq => exact hacc
        · next idList heq =>
          rw [hfail] at heq
          simp at heq
      · have hkj2 : k < j := lt_of_le_of_ne hkj hkj'
        have hk1 : (k + 1) * step ≤ j * step := Nat.mul_le_mul_right step hkj2
        have hmul1 : (k + 1) * step = k * step + step := Nat.succ_mul k step
        have hlt : k * step < j * step := (Nat.mul_lt_mul_right hstep).2 hkj2
        split
        · next heq =>
          rw [hpage _ _ hlt] at heq
          simp at heq
        · next idList heq =>
          rw [hpage _ _ hlt] at heq
          injection heq with heq
          subst heq
          have hmin := min_le_left M ids.length
          have hminR := min_le_right M ids.length
          have htfN :
              (min ((step : Nat) : Int) ((M : Int) - ((acc.length : Nat) : Int))).toNat
                = step := by omega
          split
          · next hshort =>
            exfalso
            rw [List.length_take, List.length_drop] at hshort
            omega
          · next hshort =>
            apply ih (k + 1) _ (by omega) ?hacc2 (by omega)
            case hacc2 =>
              rw [htfN, hacc, ← List.take_add]
              congr 1
              omega

/-- Claim C5: `get_all_pubmed_ids` never raises — it is a total
function of its oracles; when the initial probe fails it returns the
empty sequence, and when the pages are honest until the fetch at
offset `j*step` fails it returns exactly the identifiers collected
from the `j` preceding successful pages. -/
theorem c5_collect_ids_partial :
    (∀ (page : Nat → Nat → Option (List String)) (maxA : Int) (step : Nat),
      get_all_pubmed_ids none page maxA step = []) ∧
    (∀ (ids : List String) (page : Nat → Nat → Option (List String))
       (maxA : Int) (step j : Nat), 0 < step → 0 ≤ maxA →
      (∀ r s, s < j * step → page r s = some ((ids.drop s).take r)) →
      (∀ r, page r (j * step) = none) →
      j * step < min maxA.toNat ids.length →
      get_all_pubmed_ids (some ids.length) page maxA step = ids.take (j * step)) := by
  constructor
  · intro page maxA step
    rfl
  · intro ids page maxA step j hstep hm hpage hfail hj
    have hT : ids.length ≠ 0 := by
      have := min_le_right maxA.toNat ids.length
      omega
    simp only [get_all_pubmed_ids]
    rw [if_neg hT, if_neg (by omega : ¬maxA = -1)]
    have hcast : maxA = ((maxA.toNat : Nat) : Int) := by omega
    rw [hcast]
    apply gapLoop_fail ids page maxA.toNat step j hstep hpage hfail hj _ 0 [] (by omega)
      (by simp)
    rw [numBatches_toNat ids.length maxA.toNat step]
    have hdiv : j + 1 ≤ (min ids.length maxA.toNat + step - 1) / step := by
      rw [Nat.le_div_iff_mul_le hstep]
      have hcomm : min ids.length maxA.toNat = min maxA.toNat ids.length :=
        Nat.min_comm _ _
      have hmulj : (j + 1) * step = j * step + step := Nat.succ_mul j step
      omega
    omega

/-- Witness for C5: the oracle failing at offset 2 over the
five-identifier server returns exactly the first page's two
identifiers. -/
theorem c5_collect_ids_partial_witness :
    get_all_pubmed_ids (some idsW.length) pageFailW 10 2 = idsW.take (1 * 2) :=
  c5_collect_ids_partial.2 idsW pageFailW 10 2 1 (by decide) (by decide)
    (fun r s hs => by
      rw [show pageFailW r s = honestPage idsW r s from
        if_neg (by omega : ¬s = 2)]
      rfl)
    (fun r => rfl) (by decide)

end PaperCrawler
